import Mathlib

/-!
Verification development for the lc0crawl repository (src/lc0crawl/main.py).

The Python source is shallowly embedded: numeric values are modelled as exact
rationals (Python floats and Decimals on the decimal-literal inputs of this
program), raising an exception is modelled as returning none (or an error value
of Except), and the external engine process is modelled as the list of output
lines it emits.  Character classes of the regular expressions are modelled for
ASCII input, which is what the engine protocol produces.
-/

set_option maxRecDepth 20000

attribute [local semireducible] Rat.add Rat.mul Rat.inv Rat.sub Rat.ofScientific

namespace Lc0Crawl

/-! ## Character classes of the regular expressions in parse_info_line -/

/-- Word character class of the regex group key, ASCII part of Python regex w. -/
def isWordChar (c : Char) : Bool := c.isAlphanum || c = '_'

/-- Whitespace class, ASCII part of Python regex s. -/
def isSpaceChar (c : Char) : Bool :=
  c = ' ' || c = '\t' || c = '\n' || c = '\r' || c = '\x0b' || c = '\x0c'

/-- Value character class of the regex in parse_info_line: dash, dot, digits, percent. -/
def isValueChar (c : Char) : Bool := c = '-' || c = '.' || c.isDigit || c = '%'

/-- Character class of the leading move-token regex in parse_info_line: lowercase
letters and decimal digits. -/
def isMoveChar (c : Char) : Bool := c.isDigit || c.isLower

/-! ## Generic substring search, modelling the Python in operator on str -/

/-- True when the first list is an initial segment of the second. -/
def leadsWith : List Char → List Char → Bool
  | [], _ => true
  | _ :: _, [] => false
  | p :: ps, c :: cs => p = c && leadsWith ps cs

/-- True when pat occurs contiguously inside the text, modelling Python substring test. -/
def hasSubstr (pat : List Char) : List Char → Bool
  | [] => pat.isEmpty
  | c :: cs => leadsWith pat (c :: cs) || hasSubstr pat cs

/-! ## Python dict operations, modelled on association lists with unique keys -/

/-- Lookup in a dict, modelling Python values[k] read access (none is a KeyError). -/
def dictGet? {α : Type} : List (String × α) → String → Option α
  | [], _ => none
  | (k1, v) :: rest, k => if k1 = k then some v else dictGet? rest k

/-- Assignment d[k] = x on a Python dict: overwrite the binding of an existing key
in place, otherwise append the new binding at the end (insertion order). -/
def dictSet {α : Type} : List (String × α) → String → α → List (String × α)
  | [], k, x => [(k, x)]
  | (k1, v1) :: rest, k, x =>
      if k1 = k then (k, x) :: rest else (k1, v1) :: dictSet rest k x

/-! ## Numeric string conversion

Python float(value) and Decimal(value) on strings drawn from the value character
class accept an optional leading minus sign followed by digits with at most one
decimal point and at least one digit; anything else raises.  On such literals
both conversions denote the same exact rational, so both are modelled by one
exact parse into the rationals. -/

/-- Numeric value of a list of decimal digits, most significant first. -/
def digitsVal (cs : List Char) : ℚ :=
  cs.foldl (fun a c => 10 * a + ((c.toNat - 48 : ℕ) : ℚ)) 0

/-- Exact parse of a signed decimal literal, modelling Python float and Decimal
conversion on strings over the value character class (none is a raised error). -/
def parseDec? (cs : List Char) : Option ℚ :=
  let neg : Bool := match cs with | '-' :: _ => true | _ => false
  let body : List Char := match cs with | '-' :: rest => rest | _ => cs
  let ip := body.takeWhile Char.isDigit
  let rest := body.dropWhile Char.isDigit
  let core? : Option ℚ :=
    match rest with
    | [] => if ip.isEmpty then none else some (digitsVal ip)
    | '.' :: fp =>
        if ip.isEmpty && fp.isEmpty then none
        else if fp.all Char.isDigit then
          some (digitsVal ip + digitsVal fp / (10 : ℚ) ^ fp.length)
        else none
    | _ => none
  match core? with
  | none => none
  | some x => some (if neg then -x else x)

/-- Conversion of one statistic group value, following parse_info_line: the policy
code P strips percent signs, converts with exact decimal arithmetic and divides
by 100; every other code is converted with float(value) directly. -/
def convertValue (k : String) (v : String) : Option ℚ :=
  if k = "P" then (parseDec? (v.data.filter (fun c => c ≠ '%'))).map (fun x => x / 100)
  else parseDec? v.data

/-! ## The statistic-group regex of parse_info_line

The regex finds non-overlapping groups of shape parenthesis, key of word
characters, colon, optional whitespace, value over the value class, closing
parenthesis.  All classes involved are disjoint at the boundaries, so greedy
matching without backtracking is exact. -/

/-- Attempt to match one statistic group at the head of the character list,
returning key, raw value and the remaining characters after the group. -/
def matchGroupAt : List Char → Option (String × String × List Char)
  | '(' :: rest =>
      let kcs := rest.takeWhile isWordChar
      let r1 := rest.dropWhile isWordChar
      if kcs.isEmpty then none
      else
        match r1 with
        | ':' :: r2 =>
            let r3 := r2.dropWhile isSpaceChar
            let vcs := r3.takeWhile isValueChar
            let r4 := r3.dropWhile isValueChar
            match r4 with
            | ')' :: r5 => some (String.mk kcs, String.mk vcs, r5)
            | _ => none
        | _ => none
  | _ => none

/-- Left-to-right scan of re.findall: try a match at each position, continue after
a successful match, otherwise advance one character.  Each successful match
consumes at least one character, so fuel equal to the text length suffices. -/
def findGroupsFuel : Nat → List Char → List (String × String)
  | 0, _ => []
  | _ + 1, [] => []
  | fuel + 1, c :: cs =>
      match matchGroupAt (c :: cs) with
      | some (k, v, rest) => (k, v) :: findGroupsFuel fuel rest
      | none => findGroupsFuel fuel cs

/-- All statistic groups of a line, in order of occurrence. -/
def findGroups (cs : List Char) : List (String × String) :=
  findGroupsFuel cs.length cs

/-- The sentinel substring meaning a statistic is not available. -/
def sentinelChars : List Char := ['-', '.', '-']

/-- Build the value mapping of parse_info_line from the matched groups: a group
whose value contains the sentinel is skipped, every other group is converted and
stored; a failing conversion raises (none). -/
def buildValuesAux (acc : List (String × ℚ)) :
    List (String × String) → Option (List (String × ℚ))
  | [] => some acc
  | (k, v) :: rest =>
      if hasSubstr sentinelChars v.data then buildValuesAux acc rest
      else
        match convertValue k v with
        | none => none
        | some x => buildValuesAux (dictSet acc k x) rest

/-- Leading move token of the line: the maximal leading run of lowercase letters
and digits; an empty run means the regex finds no match and indexing the empty
match list raises (none). -/
def moveToken? (cs : List Char) : Option String :=
  let m := cs.takeWhile isMoveChar
  if m.isEmpty then none else some (String.mk m)

/-- Model of parse_info_line: extract the statistic groups, convert them into the
value mapping, then extract the leading move token; any raised exception on
either part makes the whole call raise (none). -/
def parse_info_line (s : String) : Option (String × List (String × ℚ)) :=
  match buildValuesAux [] (findGroups s.data), moveToken? s.data with
  | some values, some move => some (move, values)
  | _, _ => none

example : parse_info_line "a (Q: 0.5) (D: -.-)" = some ("a", [("Q", 1/2)]) := by decide

example : parse_info_line "Xe2 (Q: 0.5)" = none := by decide

example : parse_info_line "e2e4" = some ("e2e4", []) := by decide

/-! ## Statistic Derivation (run_lc0_on_position, pass 2, lines 197 to 199) -/

/-- Win probability derived from the win-loss differential and draw probability. -/
def deriveW (wl d : ℚ) : ℚ := (wl - d + 1) / 2

/-- Loss probability derived from the draw probability and the derived win
probability. -/
def deriveL (wl d : ℚ) : ℚ := 1 - d - deriveW wl d

/-! ## Result rows and the two analysis passes of run_lc0_on_position

An engine line is modelled as the information dictionary the engine driver
yields: none when the dictionary has no string entry, some s when it carries
the diagnostic string s.  Raising an exception is modelled as an Except error. -/

/-- One row of the results table, as assembled by run_lc0_on_position.  Fields
filled only in pass 2 are options, none modelling the Python None. -/
structure ResultRow where
  position : String
  network : String
  move : String
  policy : ℚ
  setting_hash : String
  q_value : Option ℚ
  W : Option ℚ
  D : Option ℚ
  L : Option ℚ
  M : Option ℚ
deriving DecidableEq

/-- Characters of the substring that marks a non-statistic line. -/
def nodeChars : List Char := ['n', 'o', 'd', 'e']

/-- Pass-1 processing of one diagnostic string: parse it and initialize the
partial result record for the move with its policy value; a missing P key is a
KeyError. -/
def pass1Line (position network setting_hash : String)
    (results : List (String × ResultRow)) (s : String) :
    Except String (List (String × ResultRow)) :=
  match parse_info_line s with
  | none => .error "parse_info_line raised"
  | some (move, values) =>
      match dictGet? values "P" with
      | none => .error "KeyError: P"
      | some p =>
          .ok (dictSet results move
            ⟨position, network, move, p, setting_hash, none, none, none, none, none⟩)

/-- Pass-2 processing of one diagnostic string: parse it, read the D and WL
values, derive W and L, and fill the value fields of the existing record of the
move.  Every dictionary read of a missing key is a KeyError. -/
def pass2Line (results : List (String × ResultRow)) (s : String) :
    Except String (List (String × ResultRow)) :=
  match parse_info_line s with
  | none => .error "parse_info_line raised"
  | some (move, values) =>
      match dictGet? values "D" with
      | none => .error "KeyError: D"
      | some d =>
          match dictGet? values "WL" with
          | none => .error "KeyError: WL"
          | some wl =>
              match dictGet? values "Q" with
              | none => .error "KeyError: Q"
              | some q =>
                  match dictGet? results move with
                  | none => .error "KeyError: move not present from pass 1"
                  | some row =>
                      match dictGet? values "M" with
                      | none => .error "KeyError: M"
                      | some m =>
                          .ok (dictSet results move
                            { row with
                                q_value := some q
                                W := some (deriveW wl d)
                                D := some d
                                L := some (deriveL wl d)
                                M := some m })

/-- Run one pass over the emitted lines: a line without a string entry or whose
string contains the substring node is skipped; every other line is handed to the
per-line step, and a raised exception aborts the pass. -/
def runPass (step : List (String × ResultRow) → String →
      Except String (List (String × ResultRow))) :
    List (Option String) → List (String × ResultRow) →
      Except String (List (String × ResultRow))
  | [], results => .ok results
  | line :: rest, results =>
      match line with
      | none => runPass step rest results
      | some s =>
          if hasSubstr nodeChars s.data then runPass step rest results
          else
            match step results s with
            | .error e => .error e
            | .ok results2 => runPass step rest results2

/-! ## Position resolution (run_lc0_on_position, lines 138 to 145)

The chess library is external to the repository, so the board type, the board
constructor taking a position encoding, and pushing a move in algebraic
notation are abstract parameters; none models a raised exception. -/

/-- Apply a sequence of moves in algebraic notation one by one from a board. -/
def applySans {α : Type} (pushSan : α → String → Option α) : α → List String → Option α
  | b, [] => some b
  | b, m :: ms =>
      match pushSan b m with
      | none => none
      | some b2 => applySans pushSan b2 ms

/-- Resolve the position string of a job: the empty string and the single-space
string resolve to the starting board; otherwise the string is either a complete
board encoding or a space-separated move sequence applied from the start. -/
def resolvePosition {α : Type} (start : α) (fenParse : String → Option α)
    (pushSan : α → String → Option α) (position : String) (isFen : Bool) : Option α :=
  if position = "" ∨ position = " " then some start
  else if isFen then fenParse position
  else applySans pushSan start (position.splitOn " ")

/-! ## The full per-job driver run_lc0_on_position

The two engine processes are modelled by the lists of lines they emit, and the
session by the list of committed rows.  The outcome records whether each engine
was launched and whether it received its quit call, whether the run completed,
and the committed store after the run. -/

/-- Observable outcome of one job run. -/
structure RunOutcome where
  store : List ResultRow
  ok : Bool
  launched1 : Bool
  quit1 : Bool
  launched2 : Bool
  quit2 : Bool
deriving DecidableEq

/-- Model of run_lc0_on_position: resolve the position, run pass 1 collecting
policy records, quit the first engine, run pass 2 filling value statistics, add
all rows, quit the second engine, and commit them as one unit.  An exception on
any earlier step leaves the store unchanged and skips every later step, in
particular the quit call of the engine whose pass raised. -/
def run_lc0_on_position {α : Type} (start : α) (fenParse : String → Option α)
    (pushSan : α → String → Option α) (position network setting_hash : String)
    (isFen : Bool) (pass1Lines pass2Lines : List (Option String))
    (store : List ResultRow) : RunOutcome :=
  match resolvePosition start fenParse pushSan position isFen with
  | none => ⟨store, false, false, false, false, false⟩
  | some _ =>
      match runPass (pass1Line position network setting_hash) pass1Lines [] with
      | .error _ => ⟨store, false, true, false, false, false⟩
      | .ok results1 =>
          match runPass pass2Line pass2Lines results1 with
          | .error _ => ⟨store, false, true, true, true, false⟩
          | .ok results2 =>
              ⟨store ++ results2.map Prod.snd, true, true, true, true, true⟩

/-! ## Job selection (the main loop, lines 226 to 234)

The job table row carries the composite key; the persisted results of a job are
abstracted into a predicate telling whether the job has at least one result.
The query filters jobs without results, orders by the network column descending
and takes the first row.  The network column is a string column, so the order
is lexicographic string order. -/

/-- One row of the jobs table, reduced to its composite key. -/
structure JobRec where
  position : String
  network : String
  setting_hash : String
deriving DecidableEq

/-- Lexicographic order on character lists by code point, the order the binary
collation of the store applies to the network string column. -/
def lexLe : List Char → List Char → Bool
  | [], _ => true
  | _ :: _, [] => false
  | a :: as, b :: bs => if a = b then lexLe as bs else decide (a < b)

/-- Lexicographic string comparison on the underlying characters. -/
def strLe (a b : String) : Bool := lexLe a.data b.data

/-- First maximum of a job list under lexicographic string order of the network
column, modelling order_by descending followed by first. -/
def pickMax : List JobRec → Option JobRec
  | [] => none
  | j :: rest =>
      match pickMax rest with
      | none => some j
      | some b => if strLe b.network j.network then some j else some b

/-- Model of the job query: among the jobs with no persisted result, the one
whose network string is greatest in lexicographic string order. -/
def selectJob (jobs : List JobRec) (hasRes : JobRec → Bool) : Option JobRec :=
  pickMax (jobs.filter (fun j => !hasRes j))

example :
    run_lc0_on_position () (fun _ => some ()) (fun _ _ => some ()) "" "n" "h" true
      [some "e2e4 (P: 100.0%)"] [some "e2e4 (Q: 0.5000) (D: 0.2000) (WL: 0.10) (M: 3.0)"] [] =
    ⟨[⟨"", "n", "e2e4", 1, "h", some (1/2), some (9/20), some (1/5), some (7/20), some 3⟩],
      true, true, true, true, true⟩ := by decide

/-! ## Claim C1 -/

/-- Claim C1: for every pair (WL, D) with WL in the interval from -1 to 1 and D
in the unit interval such that the derived W and L both lie in the unit
interval, the derivation computes W as (WL - D + 1) / 2 and L as 1 - D - W, and
the sum W + D + L equals 1 within tolerance one billionth (in the exact
rational model the sum is exactly 1). -/
theorem C1_derivation_sums_to_one (wl d : ℚ)
    (hwl1 : -1 ≤ wl) (hwl2 : wl ≤ 1) (hd1 : 0 ≤ d) (hd2 : d ≤ 1)
    (hW1 : 0 ≤ deriveW wl d) (hW2 : deriveW wl d ≤ 1)
    (hL1 : 0 ≤ deriveL wl d) (hL2 : deriveL wl d ≤ 1) :
    deriveW wl d = (wl - d + 1) / 2 ∧ deriveL wl d = 1 - d - deriveW wl d ∧
      |deriveW wl d + d + deriveL wl d - 1| ≤ 1 / 1000000000 := by
  refine ⟨rfl, rfl, ?_⟩
  have h : deriveW wl d + d + deriveL wl d - 1 = 0 := by
    unfold deriveL
    ring
  rw [h]
  norm_num

/-- Witness for C1 at the concrete input WL equal 0 and D equal 0. -/
theorem C1_derivation_sums_to_one_witness :
    deriveW 0 0 = (0 - 0 + 1) / 2 ∧ deriveL 0 0 = 1 - 0 - deriveW 0 0 ∧
      |deriveW 0 0 + 0 + deriveL 0 0 - 1| ≤ 1 / 1000000000 :=
  C1_derivation_sums_to_one 0 0 (by norm_num) (by norm_num) (by norm_num) (by norm_num)
    (by decide) (by decide) (by decide) (by decide)

/-! ## Claim C2 -/

/-- Claim C2: parsing the single literal input line yields the move token e2e4
and a mapping holding exactly P equal 0.1234 (the percentage divided by 100
with exact decimal arithmetic), Q equal 0.15, D equal 0.2, WL equal 0.1 and M
equal 34. -/
theorem C2_parse_literal_line :
    parse_info_line "e2e4 (P: 12.34%) (Q: 0.1500) (D: 0.2000) (WL: 0.10) (M: 34.0)" =
      some ("e2e4",
        [("P", 0.1234), ("Q", 0.15), ("D", 0.2), ("WL", 0.1), ("M", 34.0)]) := by
  decide

/-! ## Claim C8 -/

/-- Claim C8: resolving the empty position string yields the canonical starting
board, and resolving the single-space position string yields the same board as
resolving the empty string, for any board type, board parser and move pusher. -/
theorem C8_blank_position_is_start {α : Type} (start : α)
    (fenParse : String → Option α) (pushSan : α → String → Option α) (isFen : Bool) :
    resolvePosition start fenParse pushSan "" isFen = some start ∧
      resolvePosition start fenParse pushSan " " isFen =
        resolvePosition start fenParse pushSan "" isFen := by
  constructor
  · simp [resolvePosition]
  · simp [resolvePosition]

deriving instance DecidableEq for Except

/-! ## Claim C4 -/

/-- Claim C4 evaluation: the code contradicts the claim.  On a pass-2 line whose
statistic mapping lacks D and WL because the values are the sentinel, the driver
raises a KeyError on reading the draw probability instead of skipping the
derivation: the pass aborts and the whole job run fails. -/
theorem C4_missing_D_raises_KeyError :
    runPass pass2Line [some "e2e4 (Q: 0.5000) (D: -.-) (WL: -.-) (M: 10.0)"]
        [("e2e4", ⟨"", "net", "e2e4", 1, "h", none, none, none, none, none⟩)] =
      .error "KeyError: D" ∧
      (run_lc0_on_position () (fun _ => some ()) (fun _ _ => some ()) "" "net" "h" true
          [some "e2e4 (P: 100.0%)"]
          [some "e2e4 (Q: 0.5000) (D: -.-) (WL: -.-) (M: 10.0)"] []).ok = false := by
  decide

/-! ## Claim C5 -/

/-- Counterexample to claim C5: a pass-2 line for the move d2d4, which pass 1
did not report, is not dropped silently; reading the move in the results
mapping raises a KeyError, the job run fails, and nothing is committed. -/
theorem C5_counterexample :
    (run_lc0_on_position () (fun _ => some ()) (fun _ _ => some ()) "" "net" "h" true
        [some "e2e4 (P: 60.00%)"]
        [some "d2d4 (Q: 0.1000) (D: 0.2000) (WL: 0.30) (M: 5.0)"] []).ok = false ∧
      (run_lc0_on_position () (fun _ => some ()) (fun _ _ => some ()) "" "net" "h" true
        [some "e2e4 (P: 60.00%)"]
        [some "d2d4 (Q: 0.1000) (D: 0.2000) (WL: 0.30) (M: 5.0)"] []).store = [] := by
  decide

/-- A successful dictionary read means the key tests positive somewhere, and
overwriting that key leaves the key list unchanged. -/
theorem dictSet_map_fst_of_get {α : Type} (d : List (String × α)) (k : String)
    (x v : α) (h : dictGet? d k = some v) :
    (dictSet d k x).map Prod.fst = d.map Prod.fst := by
  induction d with
  | nil => simp [dictGet?] at h
  | cons p rest ih =>
      obtain ⟨k1, v1⟩ := p
      by_cases hk : k1 = k
      · subst hk
        simp [dictSet]
      · simp only [dictGet?, if_neg hk] at h
        simp [dictSet, if_neg hk, ih h]

/-- Pass-2 processing of one line never adds a move: on success the key list of
the results mapping is unchanged. -/
theorem pass2Line_map_fst (results results2 : List (String × ResultRow)) (s : String)
    (h : pass2Line results s = .ok results2) :
    results2.map Prod.fst = results.map Prod.fst := by
  unfold pass2Line at h
  rcases hp : parse_info_line s with _ | ⟨move, values⟩ <;> simp only [hp] at h
  · cases h
  rcases hd : dictGet? values "D" with _ | d <;> simp only [hd] at h
  · cases h
  rcases hwl : dictGet? values "WL" with _ | wl <;> simp only [hwl] at h
  · cases h
  rcases hq : dictGet? values "Q" with _ | q <;> simp only [hq] at h
  · cases h
  rcases hrow : dictGet? results move with _ | row <;> simp only [hrow] at h
  · cases h
  rcases hm : dictGet? values "M" with _ | m <;> simp only [hm] at h
  · cases h
  rw [← Except.ok.inj h]
  exact dictSet_map_fst_of_get results move _ row hrow

/-- Claim C5 amended: a pass-2 move absent from the pass-1 result set makes the
job fail with a KeyError rather than being dropped; consequently, whenever the
second pass completes, its result set holds exactly the moves of the pass-1
result set. -/
theorem C5_amended_pass1_moves_authoritative (lines : List (Option String))
    (results results2 : List (String × ResultRow))
    (h : runPass pass2Line lines results = .ok results2) :
    results2.map Prod.fst = results.map Prod.fst := by
  induction lines generalizing results with
  | nil =>
      simp only [runPass] at h
      rw [Except.ok.inj h]
  | cons line rest ih =>
      rcases line with _ | s
      · simp only [runPass] at h
        exact ih results h
      · cases hn : hasSubstr nodeChars s.data
        · simp only [runPass, hn, Bool.false_eq_true, if_false] at h
          rcases hs : pass2Line results s with e | rmid <;> simp only [hs] at h
          · cases h
          · exact (ih rmid h).trans (pass2Line_map_fst results rmid s hs)
        · simp only [runPass, hn, if_true] at h
          exact ih results h

/-- Witness for the amended C5 at a concrete pass-2 run over one line. -/
theorem C5_amended_witness :
    ([("e2e4", (⟨"", "n", "e2e4", 1, "h", some (1/2), some (9/20), some (1/5),
        some (7/20), some 3⟩ : ResultRow))].map Prod.fst) =
      ([("e2e4", (⟨"", "n", "e2e4", 1, "h", none, none, none, none, none⟩ : ResultRow))].map
        Prod.fst) :=
  C5_amended_pass1_moves_authoritative
    [some "e2e4 (Q: 0.5000) (D: 0.2000) (WL: 0.10) (M: 3.0)"]
    [("e2e4", ⟨"", "n", "e2e4", 1, "h", none, none, none, none, none⟩)]
    [("e2e4", ⟨"", "n", "e2e4", 1, "h", some (1/2), some (9/20), some (1/5),
        some (7/20), some 3⟩)]
    (by decide)

/-! ## Claim C6 -/

/-- Counterexample to claim C6: a pass-1 line that makes the parser raise exits
the pass without any quit call: the first engine was launched, the run fails,
and the first engine never receives its shutdown call. -/
theorem C6_counterexample :
    (run_lc0_on_position () (fun _ => some ()) (fun _ _ => some ()) "" "net" "h" true
        [some "!!"] [] []).launched1 = true ∧
      (run_lc0_on_position () (fun _ => some ()) (fun _ _ => some ()) "" "net" "h" true
        [some "!!"] [] []).ok = false ∧
      (run_lc0_on_position () (fun _ => some ()) (fun _ _ => some ()) "" "net" "h" true
        [some "!!"] [] []).quit1 = false := by
  decide

/-- Claim C6 amended: the explicit shutdown call of each engine sits only on the
normal exit path of its pass.  A run that completes shuts both engines down; a
run that fails after launching its first engine leaves the engine of the
failing pass without a shutdown call. -/
theorem C6_amended_quit_only_on_clean_exit {α : Type} (start : α)
    (fenParse : String → Option α) (pushSan : α → String → Option α)
    (position network setting_hash : String) (isFen : Bool)
    (pass1Lines pass2Lines : List (Option String)) (store : List ResultRow)
    (o : RunOutcome)
    (ho : o = run_lc0_on_position start fenParse pushSan position network
        setting_hash isFen pass1Lines pass2Lines store) :
    (o.ok = true → o.quit1 = true ∧ o.quit2 = true) ∧
      (o.launched1 = true → o.ok = false →
        o.quit1 = false ∨ (o.launched2 = true ∧ o.quit2 = false)) := by
  subst ho
  unfold run_lc0_on_position
  split
  · simp
  · split
    · simp
    · split <;> simp

/-- Witness for the amended C6: a clean run shuts both engines down, and the
concrete failing run of the counterexample input leaves an engine without
shutdown. -/
theorem C6_amended_witness :
    ((run_lc0_on_position () (fun _ => some ()) (fun _ _ => some ()) "" "n" "h" true
        [] [] []).quit1 = true ∧
      (run_lc0_on_position () (fun _ => some ()) (fun _ _ => some ()) "" "n" "h" true
        [] [] []).quit2 = true) ∧
      ((run_lc0_on_position () (fun _ => some ()) (fun _ _ => some ()) "" "n" "h" true
          [some "??"] [] []).quit1 = false ∨
        ((run_lc0_on_position () (fun _ => some ()) (fun _ _ => some ()) "" "n" "h" true
            [some "??"] [] []).launched2 = true ∧
          (run_lc0_on_position () (fun _ => some ()) (fun _ _ => some ()) "" "n" "h" true
            [some "??"] [] []).quit2 = false)) :=
  ⟨(C6_amended_quit_only_on_clean_exit () (fun _ => some ()) (fun _ _ => some ())
      "" "n" "h" true [] [] [] _ rfl).1 (by decide),
    (C6_amended_quit_only_on_clean_exit () (fun _ => some ()) (fun _ _ => some ())
      "" "n" "h" true [some "??"] [] [] _ rfl).2 (by decide) (by decide)⟩

/-! ## Claim C7 -/

/-- Claim C7: persistence is atomic per job.  A run that fails leaves the
committed store unchanged; a run that completes commits all its rows as a
single appended batch. -/
theorem C7_commit_atomic {α : Type} (start : α) (fenParse : String → Option α)
    (pushSan : α → String → Option α) (position network setting_hash : String)
    (isFen : Bool) (pass1Lines pass2Lines : List (Option String))
    (store : List ResultRow) (o : RunOutcome)
    (ho : o = run_lc0_on_position start fenParse pushSan position network
        setting_hash isFen pass1Lines pass2Lines store) :
    (o.ok = false → o.store = store) ∧
      (o.ok = true → ∃ rows, o.store = store ++ rows) := by
  subst ho
  unfold run_lc0_on_position
  split
  · simp
  · split
    · simp
    · split
      · simp
      · exact ⟨fun h => by simp at h, fun _ => ⟨_, rfl⟩⟩

/-- Witness for C7: a failing run (malformed position) leaves the store
unchanged, and a clean empty run commits its batch as one append. -/
theorem C7_commit_atomic_witness :
    (run_lc0_on_position () (fun _ => none) (fun _ _ => some ()) "x" "n" "h" true
        [] [] []).store = ([] : List ResultRow) ∧
      ∃ rows, (run_lc0_on_position () (fun _ => some ()) (fun _ _ => some ()) "" "n" "h"
          true [] [] []).store = [] ++ rows :=
  ⟨(C7_commit_atomic () (fun _ => none) (fun _ _ => some ()) "x" "n" "h" true
      [] [] [] _ rfl).1 (by decide),
    (C7_commit_atomic () (fun _ => some ()) (fun _ _ => some ()) "" "n" "h" true
      [] [] [] _ rfl).2 (by decide)⟩

/-! ## Claim C3 -/

/-- Keys present after a dict assignment: the assigned key, plus every key that
was present before. -/
theorem dictGet?_dictSet_isSome {α : Type} (d : List (String × α)) (k2 k : String)
    (x : α) :
    (dictGet? (dictSet d k2 x) k).isSome = true ↔
      k = k2 ∨ (dictGet? d k).isSome = true := by
  induction d with
  | nil =>
      by_cases hk : k2 = k
      · subst hk
        simp [dictSet, dictGet?]
      · simp [dictSet, dictGet?, hk, Ne.symm hk]
  | cons p rest ih =>
      obtain ⟨k1, v1⟩ := p
      by_cases h12 : k1 = k2
      · subst h12
        by_cases hk : k1 = k
        · subst hk
          simp [dictSet, dictGet?]
        · simp [dictSet, dictGet?, hk, Ne.symm hk]
      · by_cases hk : k1 = k
        · subst hk
          simp [dictSet, dictGet?, h12]
        · simp only [dictSet, if_neg h12, dictGet?, if_neg hk]
          exact ih

/-- Keys of the mapping built from a group list: a key of the accumulator, or
the key of some group with a non-sentinel value. -/
theorem buildValuesAux_keys (gs : List (String × String)) (acc vals : List (String × ℚ))
    (k : String) (h : buildValuesAux acc gs = some vals) :
    (dictGet? vals k).isSome = true ↔
      (dictGet? acc k).isSome = true ∨
        ∃ v, ((k, v) ∈ gs ∧ hasSubstr sentinelChars v.data = false) := by
  induction gs generalizing acc with
  | nil =>
      simp only [buildValuesAux] at h
      rw [← Option.some.inj h]
      simp
  | cons g rest ih =>
      obtain ⟨k1, v1⟩ := g
      by_cases hs1 : hasSubstr sentinelChars v1.data = true
      · simp only [buildValuesAux, if_pos hs1] at h
        rw [ih acc h]
        apply or_congr_right
        constructor
        · rintro ⟨v, hv, hns⟩
          exact ⟨v, List.mem_cons_of_mem _ hv, hns⟩
        · rintro ⟨v, hv, hns⟩
          rcases List.mem_cons.mp hv with heq | hmem
          · cases heq
            rw [hns] at hs1
            cases hs1
          · exact ⟨v, hmem, hns⟩
      · have hv1 : hasSubstr sentinelChars v1.data = false := by
          revert hs1
          cases hasSubstr sentinelChars v1.data <;> simp
        simp only [buildValuesAux, hv1, Bool.false_eq_true, if_false] at h
        rcases hc : convertValue k1 v1 with _ | x <;> simp only [hc] at h
        · cases h
        rw [ih _ h, dictGet?_dictSet_isSome]
        constructor
        · rintro ((hk | hacc) | ⟨v, hv, hns⟩)
          · subst hk
            exact Or.inr ⟨v1, List.mem_cons_self _ _, hv1⟩
          · exact Or.inl hacc
          · exact Or.inr ⟨v, List.mem_cons_of_mem _ hv, hns⟩
        · rintro (hacc | ⟨v, hv, hns⟩)
          · exact Or.inl (Or.inr hacc)
          · rcases List.mem_cons.mp hv with heq | hmem
            · cases heq
              exact Or.inl (Or.inl rfl)
            · exact Or.inr ⟨v, hmem, hns⟩

/-- Claim C3: a statistic group whose value carries the sentinel contributes no
binding: a key is present in the parsed mapping exactly when some group binds
it to a non-sentinel value, so a key all of whose groups are sentinel-valued is
absent, not bound to zero. -/
theorem C3_sentinel_key_absent (s move : String) (vals : List (String × ℚ))
    (k : String) (h : parse_info_line s = some (move, vals)) :
    (dictGet? vals k).isSome = true ↔
      ∃ v, ((k, v) ∈ findGroups s.data ∧ hasSubstr sentinelChars v.data = false) := by
  have hb : buildValuesAux [] (findGroups s.data) = some vals := by
    unfold parse_info_line at h
    rcases hbv : buildValuesAux [] (findGroups s.data) with _ | vals2 <;>
      simp only [hbv] at h
    · cases h
    rcases hmv : moveToken? s.data with _ | m <;> simp only [hmv] at h
    · cases h
    have hpair := Option.some.inj h
    have hv : vals2 = vals := congrArg Prod.snd hpair
    rw [← hv]
  rw [buildValuesAux_keys _ _ _ _ hb]
  simp [dictGet?]

/-- Witness for C3 at a concrete line where the draw-probability group carries
the sentinel: the key D is absent from the parsed mapping. -/
theorem C3_sentinel_key_absent_witness :
    (dictGet? [("Q", 1/2)] "D").isSome = true ↔
      ∃ v, (("D", v) ∈ findGroups ("a (Q: 0.5) (D: -.-)".data) ∧
        hasSubstr sentinelChars v.data = false) :=
  C3_sentinel_key_absent "a (Q: 0.5) (D: -.-)" "a" [("Q", 1/2)] "D" (by decide)

/-! ## Claim C10 -/

/-- A successful move-token extraction never returns the empty string. -/
theorem moveToken?_ne_empty (cs : List Char) (m : String) (h : moveToken? cs = some m) :
    m ≠ "" := by
  unfold moveToken? at h
  by_cases he : (cs.takeWhile isMoveChar).isEmpty = true
  · rw [if_pos he] at h
    cases h
  · rw [if_neg he] at h
    intro hm
    rw [← Option.some.inj h] at hm
    have h0 : cs.takeWhile isMoveChar = [] := congrArg String.data hm
    exact he (by rw [h0]; rfl)

/-- Claim C10: a line whose first character is neither a lowercase letter nor a
decimal digit makes the parser raise instead of returning a result, even when
the line carries well-formed statistic groups; and the parser never returns an
empty move token. -/
theorem C10_move_token_required :
    (∀ (s : String) (c : Char), s.data.head? = some c → isMoveChar c = false →
        parse_info_line s = none) ∧
      (∀ (s move : String) (vals : List (String × ℚ)),
        parse_info_line s = some (move, vals) → move ≠ "") := by
  constructor
  · intro s c hc hbad
    have hmt : moveToken? s.data = none := by
      rcases hd : s.data with _ | ⟨c0, t⟩
      · simp [hd] at hc
      · rw [hd] at hc
        simp only [List.head?] at hc
        have hcc : c0 = c := Option.some.inj hc
        subst hcc
        simp [moveToken?, List.takeWhile_cons, hbad]
    unfold parse_info_line
    rcases hb : buildValuesAux [] (findGroups s.data) with _ | v <;> simp [hb, hmt]
  · intro s move vals h
    unfold parse_info_line at h
    rcases hb : buildValuesAux [] (findGroups s.data) with _ | v <;> simp only [hb] at h
    · cases h
    rcases hm : moveToken? s.data with _ | m <;> simp only [hm] at h
    · cases h
    have hmove : m = move := congrArg Prod.fst (Option.some.inj h)
    rw [← hmove]
    exact moveToken?_ne_empty s.data m hm

/-- Witness for C10: a line opening with an uppercase letter fails to parse, and
a concrete successful parse returns a non-empty move token. -/
theorem C10_move_token_required_witness :
    parse_info_line "X (P: 1.0)" = none ∧ ("e2e4" : String) ≠ "" :=
  ⟨C10_move_token_required.1 "X (P: 1.0)" 'X' (by decide) (by decide),
    C10_move_token_required.2 "e2e4" "e2e4" [] (by decide)⟩

/-! ## Claim C9 -/

/-- The lexicographic comparison is reflexive. -/
theorem lexLe_refl (l : List Char) : lexLe l l = true := by
  induction l with
  | nil => rfl
  | cons a as ih => simp [lexLe, ih]

/-- The lexicographic comparison is total. -/
theorem lexLe_total (a b : List Char) : lexLe a b = true ∨ lexLe b a = true := by
  induction a generalizing b with
  | nil => exact Or.inl rfl
  | cons x xs ih =>
      cases b with
      | nil => exact Or.inr rfl
      | cons y ys =>
          by_cases hxy : x = y
          · subst hxy
            rcases ih ys with h | h
            · exact Or.inl (by simp [lexLe, h])
            · exact Or.inr (by simp [lexLe, h])
          · rcases lt_or_gt_of_ne hxy with h | h
            · exact Or.inl (by simp [lexLe, hxy, h])
            · exact Or.inr (by simp [lexLe, Ne.symm hxy, h])

/-- The lexicographic comparison is transitive. -/
theorem lexLe_trans (a b c : List Char) (h1 : lexLe a b = true)
    (h2 : lexLe b c = true) : lexLe a c = true := by
  induction a generalizing b c with
  | nil => rfl
  | cons x xs ih =>
      cases b with
      | nil => cases h1
      | cons y ys =>
          cases c with
          | nil => cases h2
          | cons z zs =>
              by_cases hxy : x = y <;> by_cases hyz : y = z
              · subst hxy
                subst hyz
                simp only [lexLe, if_pos rfl] at h1 h2 ⊢
                exact ih ys zs h1 h2
              · subst hxy
                simp only [lexLe, if_pos rfl] at h1
                simp only [lexLe, if_neg hyz] at h2 ⊢
                exact h2
              · subst hyz
                simp only [lexLe, if_neg hxy] at h1 ⊢
                exact h1
              · simp only [lexLe, if_neg hxy] at h1
                simp only [lexLe, if_neg hyz] at h2
                have hx : x < y := of_decide_eq_true h1
                have hy : y < z := of_decide_eq_true h2
                have hxz : x ≠ z := ne_of_lt (hx.trans hy)
                simp only [lexLe, if_neg hxz]
                exact decide_eq_true (hx.trans hy)

/-- String comparison is reflexive. -/
theorem strLe_refl (s : String) : strLe s s = true := lexLe_refl s.data

/-- String comparison is total. -/
theorem strLe_total (a b : String) : strLe a b = true ∨ strLe b a = true :=
  lexLe_total a.data b.data

/-- String comparison is transitive. -/
theorem strLe_trans (a b c : String) (h1 : strLe a b = true) (h2 : strLe b c = true) :
    strLe a c = true :=
  lexLe_trans a.data b.data c.data h1 h2

/-- The first maximum is none exactly on the empty list. -/
theorem pickMax_none (l : List JobRec) : pickMax l = none ↔ l = [] := by
  cases l with
  | nil => simp [pickMax]
  | cons j rest =>
      rcases hp : pickMax rest with _ | b <;> simp only [pickMax, hp]
      · simp
      · split <;> simp

/-- The first maximum is a member of the list. -/
theorem pickMax_mem (l : List JobRec) (b : JobRec) (h : pickMax l = some b) :
    b ∈ l := by
  induction l generalizing b with
  | nil => cases h
  | cons j rest ih =>
      rcases hp : pickMax rest with _ | b0 <;> simp only [pickMax, hp] at h
      · have hb : b = j := (Option.some.inj h).symm
        subst hb
        exact List.mem_cons_self _ _
      · by_cases hle : strLe b0.network j.network = true
        · rw [if_pos hle] at h
          have hb : b = j := (Option.some.inj h).symm
          subst hb
          exact List.mem_cons_self _ _
        · rw [if_neg hle] at h
          have hb : b = b0 := (Option.some.inj h).symm
          subst hb
          exact List.mem_cons_of_mem _ (ih _ hp)

/-- Every member of the list compares at most the first maximum. -/
theorem pickMax_ge (l : List JobRec) (b : JobRec) (h : pickMax l = some b) :
    ∀ j ∈ l, strLe j.network b.network = true := by
  induction l generalizing b with
  | nil => cases h
  | cons j0 rest ih =>
      intro j hj
      rcases hp : pickMax rest with _ | b0 <;> simp only [pickMax, hp] at h
      · have hrest : rest = [] := (pickMax_none rest).mp hp
        have hb : b = j0 := (Option.some.inj h).symm
        rw [hb]
        subst hrest
        rcases List.mem_cons.mp hj with heq | hmem
        · rw [heq]
          exact strLe_refl _
        · cases hmem
      · by_cases hle : strLe b0.network j0.network = true
        · rw [if_pos hle] at h
          have hb : b = j0 := (Option.some.inj h).symm
          rw [hb]
          rcases List.mem_cons.mp hj with heq | hmem
          · rw [heq]
            exact strLe_refl _
          · exact strLe_trans _ _ _ (ih _ hp j hmem) hle
        · rw [if_neg hle] at h
          have hb : b = b0 := (Option.some.inj h).symm
          rw [hb]
          rcases List.mem_cons.mp hj with heq | hmem
          · rw [heq]
            rcases strLe_total j0.network b0.network with hh | hh
            · exact hh
            · exact absurd hh hle
          · exact ih _ hp j hmem

/-- Counterexample to claim C9: two jobs without results whose network strings
are 10 and 9.  The query orders the string column, so it selects the job with
network 9, although numerically 9 is smaller than 10: the newest (numerically
largest) network is not the one processed first. -/
theorem C9_counterexample :
    selectJob [⟨"", "10", "h1"⟩, ⟨"", "9", "h2"⟩] (fun _ => false) =
        some ⟨"", "9", "h2"⟩ ∧
      digitsVal ("9".data) < digitsVal ("10".data) := by
  constructor
  · decide
  · show (9 : ℚ) < 10
    norm_num

/-- Claim C9 amended: the query selects a job with no persisted result, maximal
among those in lexicographic string order of the network identifier (which
matches numeric order only for identifiers of equal length); it returns none
exactly when every job has at least one result, and a job with a result is
never selected. -/
theorem C9_amended_job_selection (jobs : List JobRec) (hasRes : JobRec → Bool) :
    (∀ j, selectJob jobs hasRes = some j →
        j ∈ jobs ∧ hasRes j = false ∧
          ∀ j2 ∈ jobs, hasRes j2 = false → strLe j2.network j.network = true) ∧
      (selectJob jobs hasRes = none ↔ ∀ j ∈ jobs, hasRes j = true) := by
  constructor
  · intro j hj
    have hmem := pickMax_mem _ _ hj
    rw [List.mem_filter] at hmem
    refine ⟨hmem.1, by simpa using hmem.2, ?_⟩
    intro j2 hj2 hres2
    exact pickMax_ge _ _ hj j2 (List.mem_filter.mpr ⟨hj2, by simp [hres2]⟩)
  · rw [show selectJob jobs hasRes = pickMax (jobs.filter fun j => !hasRes j) from rfl,
      pickMax_none, List.filter_eq_nil_iff]
    constructor
    · intro h j hj
      simpa using h j hj
    · intro h j hj
      simp [h j hj]

/-- Witness for the amended C9 at a one-job list without results. -/
theorem C9_amended_job_selection_witness :
    JobRec.mk "" "5" "h" ∈ [JobRec.mk "" "5" "h"] ∧
      (fun _ => false : JobRec → Bool) (JobRec.mk "" "5" "h") = false ∧
      ∀ j2 ∈ [JobRec.mk "" "5" "h"], (fun _ => false : JobRec → Bool) j2 = false →
        strLe j2.network (JobRec.mk "" "5" "h").network = true :=
  (C9_amended_job_selection [JobRec.mk "" "5" "h"] (fun _ => false)).1
    (JobRec.mk "" "5" "h") (by decide)

end Lc0Crawl
